import Mathlib

/-!
Shallow embedding of the mp2 rate-monotonic scheduler kernel module
(src/mp2/mp2_kernel_mod.c) and proofs about its admission control,
run-queue discipline, dispatcher, timer and yield handling.

Modelling conventions:
* A kmalloc'd struct mp2_task_struct is identified by a stable token
  tid (its allocation identity); the registry list mp2_task_struct_list
  is a Lean list of records in list_add_tail order.
* The run queue mp2_rq holds, per queued node, the pair (tid, P).  The
  period P is immutable after registration, so carrying a copy of it in
  the queue entry is faithful to the C, where the comparison in
  mp2_add_task_to_rq reads P directly from the queued node.
* mp2_current is the tid of the currently running record (none = NULL).
* Time is measured in milliseconds and the clock is a plain Nat; at
  HZ = 1000, msecs_to_jiffies is the identity, so jiffies-valued fields
  such as next_period are Nats in the same unit.
* wake_up_interruptible on the dispatcher wait queue is modelled by a
  counter of wakeups, so that signalling (or not signalling) the
  dispatcher is observable in the state.
* The product C*1000 inside the admission control is computed by the C
  code in 32-bit unsigned arithmetic, hence the explicit mod 2^32.
* sched_setscheduler is modelled by policy / rt_priority fields on the
  record; wake_up_process and set_task_state(..., TASK_UNINTERRUPTIBLE)
  by a suspended flag.
-/

/-- MP2 task states: MP2_TASK_RUNNING, MP2_TASK_READY, MP2_TASK_SLEEPING. -/
inductive Mp2TaskState where
  | running
  | ready
  | sleeping
deriving DecidableEq

/-- Scheduling policy as used by the module: SCHED_FIFO or SCHED_NORMAL. -/
inductive SchedPolicy where
  | fifo
  | normal
deriving DecidableEq

/-- Highest Linux real-time priority bound MAX_USER_RT_PRIO. -/
def MAX_USER_RT_PRIO : Nat := 100

/-- One struct mp2_task_struct.  tid models the identity of the
kmalloc'd node; timer is the wakeup_timer: some e when the timer is
armed to expire at absolute time e, none when it is merely initialized
(setup_timer) and not pending. -/
structure Mp2TaskStruct where
  tid : Nat
  pid : Nat
  C : Nat
  P : Nat
  state : Mp2TaskState
  next_period : Nat
  timer : Option Nat
  policy : SchedPolicy
  rt_priority : Nat
  suspended : Bool
deriving DecidableEq

/-- The module's global state: registry list, run queue, current task,
an allocator counter for fresh node identities, and the count of
wake_up_interruptible calls on the dispatcher wait queue. -/
structure Mp2Sys where
  task_list : List Mp2TaskStruct
  rq : List (Nat × Nat)
  current : Option Nat
  next_tid : Nat
  wakeups : Nat
deriving DecidableEq

/-- State after mp2_init_module: empty registry, empty run queue,
mp2_current = NULL. -/
def mp2_init : Mp2Sys := ⟨[], [], none, 0, 0⟩

/-- find_mp2_task_by_pid: scan mp2_task_struct_list for the first record
with the given pid, NULL (none) when absent. -/
def find_mp2_task_by_pid (l : List Mp2TaskStruct) (pid : Nat) : Option Mp2TaskStruct :=
  l.find? (fun t => t.pid = pid)

/-- Dereference a node identity: the registry record carrying this tid. -/
def findByTid (l : List Mp2TaskStruct) (tid : Nat) : Option Mp2TaskStruct :=
  l.find? (fun t => t.tid = tid)

/-- In-place mutation of the record with the given tid (a C write
through the node pointer). -/
def updateTid (l : List Mp2TaskStruct) (tid : Nat) (f : Mp2TaskStruct → Mp2TaskStruct) :
    List Mp2TaskStruct :=
  l.map (fun t => if t.tid = tid then f t else t)

/-- One task's scaled utilization (C*1000)/P exactly as the C computes
it: the product C*1000 is 32-bit unsigned (wraps mod 2^32), the
division truncates. -/
def mp2_util (C P : Nat) : Nat := C * 1000 % 2 ^ 32 / P

/-- mp2_admission_control: candidate utilization plus the sum over the
registered tasks; reject when the total exceeds 693, else admit. -/
def mp2_admission_control (C P : Nat) (l : List Mp2TaskStruct) : Bool :=
  let total := l.foldl (fun acc t => acc + mp2_util t.C t.P) (mp2_util C P)
  if 693 < total then false else true

/-- The ordered insert of mp2_add_task_to_rq: walk the queue and place
the new entry just before the first node whose P is strictly greater,
i.e. after every node with P less than or equal to the new one. -/
def rqInsert : List (Nat × Nat) → Nat × Nat → List (Nat × Nat)
  | [], e => [e]
  | x :: xs, e => if e.2 < x.2 then e :: x :: xs else x :: rqInsert xs e

/-- mp2_add_task_to_rq: mark the task READY and ordered-insert its node
into mp2_rq. -/
def mp2_add_task_to_rq (s : Mp2Sys) (t : Mp2TaskStruct) : Mp2Sys :=
  { s with
    task_list := updateTid s.task_list t.tid (fun u => { u with state := .ready }),
    rq := rqInsert s.rq (t.tid, t.P) }

/-- mp2_remove_task_from_rq: list_del of the task's node. -/
def mp2_remove_task_from_rq (s : Mp2Sys) (tid : Nat) : Mp2Sys :=
  { s with rq := s.rq.filter (fun e => e.1 ≠ tid) }

/-- wakeup_timer_handler: look the task up by pid; if found, mark it
READY, insert it into the run queue and wake the dispatcher. -/
def wakeup_timer_handler (s : Mp2Sys) (pid : Nat) : Mp2Sys :=
  match find_mp2_task_by_pid s.task_list pid with
  | none => s
  | some t =>
      let s1 := mp2_add_task_to_rq s t
      { s1 with wakeups := s1.wakeups + 1 }

/-- mp2_register_process after the command string has been parsed into
(pid, P, C).  task_found models the result of find_task_by_pid on the
OS side.  On admission failure or lookup failure the freshly kmalloc'd
record is freed again and nothing is added.  On success: next_period is
set to now + P, the record is appended to the registry with
list_add_tail, setup_timer initializes the wakeup timer without arming
it, and the state becomes SLEEPING. -/
def mp2_register_process (s : Mp2Sys) (pid P C now : Nat) (task_found : Bool) : Mp2Sys :=
  if mp2_admission_control C P s.task_list = false then s
  else if task_found = false then s
  else
    { s with
      task_list := s.task_list ++
        [⟨s.next_tid, pid, C, P, .sleeping, now + P, none, .normal, 0, false⟩],
      next_tid := s.next_tid + 1 }

/-- mp2_deregister_process: if the pid is registered, remove the node
from the run queue, delete it from the registry, cancel its timer
(del_timer_sync), clear mp2_current when it pointed here, free the
record and wake the dispatcher; otherwise a no-op. -/
def mp2_deregister_process (s : Mp2Sys) (pid : Nat) : Mp2Sys :=
  match find_mp2_task_by_pid s.task_list pid with
  | none => s
  | some t =>
      { s with
        rq := s.rq.filter (fun e => e.1 ≠ t.tid),
        task_list := s.task_list.filter (fun u => u.tid ≠ t.tid),
        current := if s.current = some t.tid then none else s.current,
        wakeups := s.wakeups + 1 }

/-- The C test (mp2_current and mp2_current->pid == pid). -/
def currentPidIs (s : Mp2Sys) (pid : Nat) : Bool :=
  match s.current with
  | none => false
  | some ctid =>
      match findByTid s.task_list ctid with
      | none => false
      | some c => c.pid = pid

/-- Task lookup at the top of mp2_yield_process: prefer mp2_current when
its pid matches, else scan the registry. -/
def yieldLookup (s : Mp2Sys) (pid : Nat) : Option Mp2TaskStruct :=
  if currentPidIs s pid then s.current.bind (findByTid s.task_list)
  else find_mp2_task_by_pid s.task_list pid

/-- Field update of the yield early branch: state := SLEEPING and
mod_timer to expire at jiffies + (next_period - jiffies) = next_period. -/
def yieldSleepUpdate (next : Nat) (u : Mp2TaskStruct) : Mp2TaskStruct :=
  { u with state := .sleeping, timer := some next }

/-- Field update at the tail of mp2_yield_process: priority back to
SCHED_NORMAL/0 and set_task_state TASK_UNINTERRUPTIBLE. -/
def yieldFinishUpdate (u : Mp2TaskStruct) : Mp2TaskStruct :=
  { u with policy := .normal, rt_priority := 0, suspended := true }

/-- The early branch of mp2_yield_process (now strictly before
next_period): state := SLEEPING, arm the timer for the period boundary,
and only when the yielding task is the current one remove it from the
run queue, clear mp2_current and wake the dispatcher.  The pid fields
and mp2_current are not touched by the sleep update, so evaluating the
current-task test on the entry state is the same test the C performs
on the live state. -/
def yieldEarly (s : Mp2Sys) (tmp : Mp2TaskStruct) : Mp2Sys :=
  let sa := { s with
    task_list := updateTid s.task_list tmp.tid (yieldSleepUpdate tmp.next_period) }
  if currentPidIs s tmp.pid then
    { sa with
      rq := sa.rq.filter (fun e => e.1 ≠ tmp.tid),
      current := none,
      wakeups := sa.wakeups + 1 }
  else sa

/-- The late branch of mp2_yield_process (the period boundary already
passed): a SLEEPING task is turned READY and queued; the dispatcher is
woken and mp2_current is cleared unconditionally. -/
def yieldLate (s : Mp2Sys) (tmp : Mp2TaskStruct) : Mp2Sys :=
  let sb := if tmp.state = .sleeping then mp2_add_task_to_rq s tmp else s
  { sb with current := none, wakeups := sb.wakeups + 1 }

/-- mp2_yield_process: look the task up (preferring mp2_current), take
the early or the late branch depending on whether the period boundary
has passed, then in both cases drop the task to SCHED_NORMAL/0 and
suspend it (set_task_state TASK_UNINTERRUPTIBLE followed by schedule). -/
def mp2_yield_process (s : Mp2Sys) (pid now : Nat) : Mp2Sys :=
  match yieldLookup s pid with
  | none => s
  | some tmp =>
      let s1 := if now < tmp.next_period then yieldEarly s tmp else yieldLate s tmp
      { s1 with task_list := updateTid s1.task_list tmp.tid yieldFinishUpdate }

/-- Field update applied by the dispatcher when it demotes the running
task: priority to SCHED_NORMAL/0, TASK_UNINTERRUPTIBLE, state READY. -/
def demoteUpdate (u : Mp2TaskStruct) : Mp2TaskStruct :=
  { u with policy := .normal, rt_priority := 0, suspended := true, state := .ready }

/-- Field update applied by the dispatcher to the task it dispatches:
wake_up_process, SCHED_FIFO at MAX_USER_RT_PRIO - 1, state RUNNING, and
next_period advanced by exactly the task's own period. -/
def dispatchUpdate (u : Mp2TaskStruct) : Mp2TaskStruct :=
  { u with suspended := false, policy := .fifo, rt_priority := MAX_USER_RT_PRIO - 1,
           state := .running, next_period := u.next_period + u.P }

/-- The tail of the dispatcher loop body: wake the selected head task,
raise it to SCHED_FIFO at MAX_USER_RT_PRIO - 1, record it in
mp2_current, mark it RUNNING and advance its next_period by its own
period.  Nothing is removed from the run queue here. -/
def dispatchTo (s : Mp2Sys) (hd : Nat × Nat) : Mp2Sys :=
  { s with
    task_list := updateTid s.task_list hd.1 dispatchUpdate,
    current := some hd.1 }

/-- The dispatcher's treatment of an existing current task against the
run-queue head: if the current task's period is strictly larger, demote
it (priority to baseline, suspend, READY), clear mp2_current and
dispatch the head; otherwise leave everything alone (the C continue). -/
def schedCheckCurrent (s : Mp2Sys) (hd : Nat × Nat) (ctid : Nat) : Mp2Sys :=
  match findByTid s.task_list ctid with
  | some c =>
      if hd.2 < c.P then
        dispatchTo
          { s with
            task_list := updateTid s.task_list ctid demoteUpdate,
            current := none } hd
      else s
  | none => dispatchTo s hd

/-- One pass of the dispatcher loop body in mp2_sched_kthread_fn (what
runs each time the kthread is woken).  If the run queue is non-empty,
read its head; if some task is current, compare periods and demote or
continue; when no task is current the head is dispatched directly.  The
C never removes the dispatched node from the run queue. -/
def mp2_sched_kthread_step (s : Mp2Sys) : Mp2Sys :=
  match s.rq with
  | [] => s
  | hd :: _ =>
      match s.current with
      | some ctid => schedCheckCurrent s hd ctid
      | none => dispatchTo s hd

/-- The events that can hit the module state: a proc write dispatching
to register / yield / deregister, a wakeup timer expiry, and one pass
of the dispatcher kthread. -/
inductive Mp2Step : Mp2Sys → Mp2Sys → Prop where
  | register (s : Mp2Sys) (pid P C now : Nat) (task_found : Bool) :
      Mp2Step s (mp2_register_process s pid P C now task_found)
  | wakeup (s : Mp2Sys) (pid : Nat) :
      Mp2Step s (wakeup_timer_handler s pid)
  | yield (s : Mp2Sys) (pid now : Nat) :
      Mp2Step s (mp2_yield_process s pid now)
  | deregister (s : Mp2Sys) (pid : Nat) :
      Mp2Step s (mp2_deregister_process s pid)
  | sched (s : Mp2Sys) :
      Mp2Step s (mp2_sched_kthread_step s)

/-- States reachable from module load by any interleaving of events. -/
inductive Mp2Reachable : Mp2Sys → Prop where
  | init : Mp2Reachable mp2_init
  | step {s s' : Mp2Sys} : Mp2Reachable s → Mp2Step s s' → Mp2Reachable s'

/-- The per-task next_period field observed through a node identity. -/
def taskNextPeriod (s : Mp2Sys) (tid : Nat) : Option Nat :=
  (findByTid s.task_list tid).map (fun t => t.next_period)

/-! Helper lemmas about the registry and run-queue primitives. -/

theorem find_mp2_task_by_pid_mem {l : List Mp2TaskStruct} {pid : Nat} {t : Mp2TaskStruct}
    (h : find_mp2_task_by_pid l pid = some t) : t ∈ l ∧ t.pid = pid := by
  unfold find_mp2_task_by_pid at h
  have hp := List.find?_some h
  simp only [decide_eq_true_eq] at hp
  exact ⟨List.mem_of_find?_eq_some h, hp⟩

theorem findByTid_mem {l : List Mp2TaskStruct} {tid : Nat} {t : Mp2TaskStruct}
    (h : findByTid l tid = some t) : t ∈ l ∧ t.tid = tid := by
  unfold findByTid at h
  have hp := List.find?_some h
  simp only [decide_eq_true_eq] at hp
  exact ⟨List.mem_of_find?_eq_some h, hp⟩

theorem updateTid_map_eq (l : List Mp2TaskStruct) (tid : Nat)
    (f : Mp2TaskStruct → Mp2TaskStruct) {β : Type} (g : Mp2TaskStruct → β)
    (h : ∀ u, g (f u) = g u) : (updateTid l tid f).map g = l.map g := by
  unfold updateTid
  rw [List.map_map]
  refine List.map_congr_left ?_
  intro u _
  by_cases hu : u.tid = tid <;> simp [Function.comp, hu, h]

theorem mem_updateTid {l : List Mp2TaskStruct} {tid : Nat}
    {f : Mp2TaskStruct → Mp2TaskStruct} {t' : Mp2TaskStruct}
    (h : t' ∈ updateTid l tid f) :
    ∃ t ∈ l, t' = if t.tid = tid then f t else t := by
  rcases List.mem_map.mp h with ⟨t, ht, rfl⟩
  exact ⟨t, ht, rfl⟩

theorem updateTid_mem {l : List Mp2TaskStruct} (tid : Nat)
    (f : Mp2TaskStruct → Mp2TaskStruct) {t : Mp2TaskStruct} (h : t ∈ l) :
    (if t.tid = tid then f t else t) ∈ updateTid l tid f :=
  List.mem_map_of_mem _ h

theorem findByTid_updateTid (l : List Mp2TaskStruct) (tid : Nat)
    (f : Mp2TaskStruct → Mp2TaskStruct) (h : ∀ u, (f u).tid = u.tid) (tid' : Nat) :
    findByTid (updateTid l tid f) tid' =
      (findByTid l tid').map (fun t => if t.tid = tid then f t else t) := by
  unfold findByTid updateTid
  rw [List.find?_map]
  have hp : ((fun t => decide (t.tid = tid')) ∘ fun t => if t.tid = tid then f t else t)
      = (fun t : Mp2TaskStruct => decide (t.tid = tid')) := by
    funext u
    by_cases hu : u.tid = tid <;> simp [Function.comp, hu, h]
  rw [hp]

theorem mem_rqInsert (l : List (Nat × Nat)) (e a : Nat × Nat) :
    a ∈ rqInsert l e ↔ a = e ∨ a ∈ l := by
  induction l with
  | nil => simp [rqInsert]
  | cons x xs ih =>
      unfold rqInsert
      split
      · simp [or_comm, or_assoc, or_left_comm]
      · simp [ih]
        tauto

theorem rqInsert_sorted {l : List (Nat × Nat)} (e : Nat × Nat)
    (h : l.Pairwise (fun a b => a.2 ≤ b.2)) :
    (rqInsert l e).Pairwise (fun a b => a.2 ≤ b.2) := by
  induction l with
  | nil => simp [rqInsert]
  | cons x xs ih =>
      rw [List.pairwise_cons] at h
      unfold rqInsert
      split
      · refine List.pairwise_cons.mpr ⟨?_, List.pairwise_cons.mpr ⟨h.1, h.2⟩⟩
        intro b hb
        rcases List.mem_cons.mp hb with rfl | hb
        · omega
        · have := h.1 b hb
          omega
      · refine List.pairwise_cons.mpr ⟨?_, ih h.2⟩
        intro b hb
        rcases (mem_rqInsert xs e b).mp hb with rfl | hb
        · omega
        · exact h.1 b hb

theorem rqInsert_span {l : List (Nat × Nat)} (e : Nat × Nat)
    (h : l.Pairwise (fun a b => a.2 ≤ b.2)) :
    rqInsert l e = l.filter (fun x => x.2 ≤ e.2) ++ e :: l.filter (fun x => e.2 < x.2) := by
  induction l with
  | nil => simp [rqInsert]
  | cons x xs ih =>
      rw [List.pairwise_cons] at h
      unfold rqInsert
      split
      · rename_i hlt
        have hall : ∀ b ∈ x :: xs, e.2 < b.2 := by
          intro b hb
          rcases List.mem_cons.mp hb with rfl | hb
          · exact hlt
          · have := h.1 b hb
            omega
        have h1 : (x :: xs).filter (fun y => y.2 ≤ e.2) = [] := by
          rw [List.filter_eq_nil_iff]
          intro b hb
          have := hall b hb
          simp
          omega
        have h2 : (x :: xs).filter (fun y => e.2 < y.2) = x :: xs := by
          rw [List.filter_eq_self]
          intro b hb
          have := hall b hb
          simp
          omega
        rw [h1, h2]
        rfl
      · rename_i hge
        have hle : x.2 ≤ e.2 := by omega
        rw [List.filter_cons, List.filter_cons, ih h.2]
        simp [hle, hge]

/-! The inductive invariant carried by every reachable module state. -/

/-- Structural well-formedness of the module state: node identities are
unique and below the allocator counter; every queue entry refers to a
registered record and carries that record's period; the current task is
a registered record and sits in the run queue; every READY record is in
the run queue; the run queue is sorted by ascending period. -/
structure Mp2Inv (s : Mp2Sys) : Prop where
  tid_nodup : (s.task_list.map (fun t => t.tid)).Nodup
  tid_lt : ∀ t ∈ s.task_list, t.tid < s.next_tid
  rq_reg : ∀ e ∈ s.rq, ∃ t ∈ s.task_list, t.tid = e.1 ∧ t.P = e.2
  cur_reg : ∀ c, s.current = some c → ∃ t ∈ s.task_list, t.tid = c
  cur_rq : ∀ c, s.current = some c → ∃ e ∈ s.rq, e.1 = c
  ready_rq : ∀ t ∈ s.task_list, t.state = .ready → ∃ e ∈ s.rq, e.1 = t.tid
  rq_sorted : s.rq.Pairwise (fun a b => a.2 ≤ b.2)

theorem mp2_inv_init : Mp2Inv mp2_init := by
  constructor <;> simp [mp2_init]

/-- A registry write that preserves node identity and period and never
turns a task READY preserves the invariant. -/
theorem mp2_inv_update_no_ready (s : Mp2Sys) (tid0 : Nat)
    (f : Mp2TaskStruct → Mp2TaskStruct) (h : Mp2Inv s)
    (htid : ∀ u, (f u).tid = u.tid) (hP : ∀ u, (f u).P = u.P)
    (hst : ∀ u, (f u).state = .ready → u.state = .ready) :
    Mp2Inv { s with task_list := updateTid s.task_list tid0 f } := by
  refine ⟨?_, ?_, ?_, ?_, h.cur_rq, ?_, h.rq_sorted⟩
  · exact (updateTid_map_eq s.task_list tid0 f (fun t => t.tid) htid) ▸ h.tid_nodup
  · intro u hu
    rcases mem_updateTid hu with ⟨v, hv, rfl⟩
    have := h.tid_lt v hv
    by_cases hvt : v.tid = tid0 <;> simp [hvt, htid] <;> omega
  · intro e he
    obtain ⟨u, hu, h1, h2⟩ := h.rq_reg e he
    refine ⟨if u.tid = tid0 then f u else u, updateTid_mem tid0 f hu, ?_⟩
    by_cases hut : u.tid = tid0
    · rw [if_pos hut]
      exact ⟨(htid u).trans h1, (hP u).trans h2⟩
    · rw [if_neg hut]
      exact ⟨h1, h2⟩
  · intro c hc
    obtain ⟨u, hu, h1⟩ := h.cur_reg c hc
    refine ⟨if u.tid = tid0 then f u else u, updateTid_mem tid0 f hu, ?_⟩
    by_cases hut : u.tid = tid0
    · rw [if_pos hut]
      exact (htid u).trans h1
    · rw [if_neg hut]
      exact h1
  · intro u hu hr
    rcases mem_updateTid hu with ⟨v, hv, rfl⟩
    by_cases hvt : v.tid = tid0
    · rw [if_pos hvt] at hr ⊢
      obtain ⟨e, he, h1⟩ := h.ready_rq v hv (hst v hr)
      exact ⟨e, he, by rw [h1, htid]⟩
    · rw [if_neg hvt] at hr ⊢
      exact h.ready_rq v hv hr

/-- mp2_add_task_to_rq preserves the invariant when applied to a
registered record. -/
theorem mp2_inv_add (s : Mp2Sys) (t : Mp2TaskStruct) (h : Mp2Inv s)
    (ht : t ∈ s.task_list) : Mp2Inv (mp2_add_task_to_rq s t) := by
  unfold mp2_add_task_to_rq
  refine ⟨?_, ?_, ?_, ?_, ?_, ?_, ?_⟩
  · exact (updateTid_map_eq s.task_list t.tid (fun u => { u with state := .ready })
      (fun u => u.tid) (fun u => rfl)) ▸ h.tid_nodup
  · intro u hu
    rcases mem_updateTid hu with ⟨v, hv, rfl⟩
    have := h.tid_lt v hv
    by_cases hvt : v.tid = t.tid
    · rw [if_pos hvt]
      exact this
    · rw [if_neg hvt]
      exact this
  · intro e he
    rcases (mem_rqInsert s.rq (t.tid, t.P) e).mp he with rfl | he
    · refine ⟨if t.tid = t.tid then { t with state := .ready } else t,
        updateTid_mem t.tid _ ht, ?_⟩
      simp
    · obtain ⟨u, hu, h1, h2⟩ := h.rq_reg e he
      refine ⟨if u.tid = t.tid then { u with state := .ready } else u,
        updateTid_mem t.tid _ hu, ?_⟩
      by_cases hut : u.tid = t.tid
      · rw [if_pos hut]
        exact ⟨h1, h2⟩
      · rw [if_neg hut]
        exact ⟨h1, h2⟩
  · intro c hc
    obtain ⟨u, hu, h1⟩ := h.cur_reg c hc
    refine ⟨if u.tid = t.tid then { u with state := .ready } else u,
      updateTid_mem t.tid _ hu, ?_⟩
    by_cases hut : u.tid = t.tid
    · rw [if_pos hut]
      exact h1
    · rw [if_neg hut]
      exact h1
  · intro c hc
    obtain ⟨e, he, h1⟩ := h.cur_rq c hc
    exact ⟨e, (mem_rqInsert s.rq (t.tid, t.P) e).mpr (Or.inr he), h1⟩
  · intro u hu hr
    rcases mem_updateTid hu with ⟨v, hv, rfl⟩
    by_cases hvt : v.tid = t.tid
    · refine ⟨(t.tid, t.P), (mem_rqInsert s.rq (t.tid, t.P) _).mpr (Or.inl rfl), ?_⟩
      simp [hvt]
    · rw [if_neg hvt] at hr ⊢
      obtain ⟨e, he, h1⟩ := h.ready_rq v hv hr
      exact ⟨e, (mem_rqInsert s.rq (t.tid, t.P) e).mpr (Or.inr he), h1⟩
  · exact rqInsert_sorted (t.tid, t.P) h.rq_sorted

theorem mp2_inv_register (s : Mp2Sys) (pid P C now : Nat) (fnd : Bool) (h : Mp2Inv s) :
    Mp2Inv (mp2_register_process s pid P C now fnd) := by
  unfold mp2_register_process
  split
  · exact h
  split
  · exact h
  refine ⟨?_, ?_, ?_, ?_, h.cur_rq, ?_, h.rq_sorted⟩
  · rw [List.map_append]
    refine List.Nodup.append h.tid_nodup (by simp) ?_
    intro a ha hb
    simp at hb
    subst hb
    rcases List.mem_map.mp ha with ⟨u, hu, he⟩
    have := h.tid_lt u hu
    omega
  · intro t ht
    rcases List.mem_append.mp ht with ht | ht
    · have := h.tid_lt t ht
      show t.tid < s.next_tid + 1
      omega
    · simp at ht
      subst ht
      show s.next_tid < s.next_tid + 1
      omega
  · intro e he
    obtain ⟨u, hu, h1, h2⟩ := h.rq_reg e he
    exact ⟨u, List.mem_append.mpr (Or.inl hu), h1, h2⟩
  · intro c hc
    obtain ⟨u, hu, h1⟩ := h.cur_reg c hc
    exact ⟨u, List.mem_append.mpr (Or.inl hu), h1⟩
  · intro t ht hr
    rcases List.mem_append.mp ht with ht | ht
    · exact h.ready_rq t ht hr
    · simp at ht
      subst ht
      simp at hr

theorem mp2_inv_wakeup (s : Mp2Sys) (pid : Nat) (h : Mp2Inv s) :
    Mp2Inv (wakeup_timer_handler s pid) := by
  unfold wakeup_timer_handler
  cases hf : find_mp2_task_by_pid s.task_list pid with
  | none => exact h
  | some t =>
      have h1 := mp2_inv_add s t h (find_mp2_task_by_pid_mem hf).1
      exact ⟨h1.tid_nodup, h1.tid_lt, h1.rq_reg, h1.cur_reg, h1.cur_rq, h1.ready_rq,
        h1.rq_sorted⟩

theorem mp2_inv_deregister (s : Mp2Sys) (pid : Nat) (h : Mp2Inv s) :
    Mp2Inv (mp2_deregister_process s pid) := by
  unfold mp2_deregister_process
  cases hf : find_mp2_task_by_pid s.task_list pid with
  | none => exact h
  | some t =>
      show Mp2Inv
        { s with
          rq := s.rq.filter (fun e => e.1 ≠ t.tid),
          task_list := s.task_list.filter (fun u => u.tid ≠ t.tid),
          current := if s.current = some t.tid then none else s.current,
          wakeups := s.wakeups + 1 }
      refine ⟨?_, ?_, ?_, ?_, ?_, ?_, ?_⟩
      · exact h.tid_nodup.sublist
          (List.Sublist.map (fun u => u.tid) (List.filter_sublist s.task_list))
      · intro u hu
        have := h.tid_lt u (List.mem_filter.mp hu).1
        show u.tid < s.next_tid
        omega
      · intro e he
        have hee := List.mem_filter.mp he
        obtain ⟨u, hu, h1, h2⟩ := h.rq_reg e hee.1
        refine ⟨u, List.mem_filter.mpr ⟨hu, ?_⟩, h1, h2⟩
        have h3 := hee.2
        simp only [decide_eq_true_eq] at h3 ⊢
        rw [h1]
        exact h3
      · intro c hc
        simp only [] at hc
        by_cases hcc : s.current = some t.tid
        · rw [if_pos hcc] at hc
          exact Option.noConfusion hc
        · rw [if_neg hcc] at hc
          obtain ⟨u, hu, h1⟩ := h.cur_reg c hc
          refine ⟨u, List.mem_filter.mpr ⟨hu, ?_⟩, h1⟩
          simp only [decide_eq_true_eq]
          rw [h1]
          intro hct
          rw [hct] at hc
          exact hcc hc
      · intro c hc
        simp only [] at hc
        by_cases hcc : s.current = some t.tid
        · rw [if_pos hcc] at hc
          exact Option.noConfusion hc
        · rw [if_neg hcc] at hc
          obtain ⟨e, he, h1⟩ := h.cur_rq c hc
          refine ⟨e, List.mem_filter.mpr ⟨he, ?_⟩, h1⟩
          simp only [decide_eq_true_eq]
          rw [h1]
          intro hct
          rw [hct] at hc
          exact hcc hc
      · intro u hu hr
        have huu := List.mem_filter.mp hu
        obtain ⟨e, he, h1⟩ := h.ready_rq u huu.1 hr
        refine ⟨e, List.mem_filter.mpr ⟨he, ?_⟩, h1⟩
        have h3 := huu.2
        simp only [decide_eq_true_eq] at h3 ⊢
        rw [h1]
        exact h3
      · exact h.rq_sorted.sublist (List.filter_sublist s.rq)

/-- Demoting the current task preserves the invariant: the record it
turns READY is exactly the current task, which sits in the run queue. -/
theorem mp2_inv_demote (s : Mp2Sys) (ctid : Nat) (h : Mp2Inv s)
    (hc : s.current = some ctid) :
    Mp2Inv { s with task_list := updateTid s.task_list ctid demoteUpdate,
                    current := none } := by
  obtain ⟨e0, he0, he0c⟩ := h.cur_rq ctid hc
  refine ⟨?_, ?_, ?_, ?_, ?_, ?_, h.rq_sorted⟩
  · exact (updateTid_map_eq s.task_list ctid demoteUpdate (fun u => u.tid)
      (fun u => rfl)) ▸ h.tid_nodup
  · intro u hu
    rcases mem_updateTid hu with ⟨v, hv, rfl⟩
    have := h.tid_lt v hv
    by_cases hvt : v.tid = ctid
    · rw [if_pos hvt]
      exact this
    · rw [if_neg hvt]
      exact this
  · intro e he
    obtain ⟨u, hu, h1, h2⟩ := h.rq_reg e he
    refine ⟨if u.tid = ctid then demoteUpdate u else u, updateTid_mem ctid _ hu, ?_⟩
    by_cases hut : u.tid = ctid
    · rw [if_pos hut]
      exact ⟨h1, h2⟩
    · rw [if_neg hut]
      exact ⟨h1, h2⟩
  · intro c hcc
    exact Option.noConfusion hcc
  · intro c hcc
    exact Option.noConfusion hcc
  · intro u hu hr
    rcases mem_updateTid hu with ⟨v, hv, rfl⟩
    by_cases hvt : v.tid = ctid
    · rw [if_pos hvt]
      refine ⟨e0, he0, ?_⟩
      rw [he0c]
      exact (hvt.symm : ctid = v.tid)
    · rw [if_neg hvt] at hr ⊢
      exact h.ready_rq v hv hr

/-- Dispatching the head of the run queue preserves the invariant. -/
theorem mp2_inv_dispatch (s : Mp2Sys) (hd : Nat × Nat) (tl : List (Nat × Nat))
    (h : Mp2Inv s) (hrq : s.rq = hd :: tl) : Mp2Inv (dispatchTo s hd) := by
  have hhd : hd ∈ s.rq := by
    rw [hrq]
    exact List.mem_cons_self hd tl
  obtain ⟨t0, ht0, ht0tid, _⟩ := h.rq_reg hd hhd
  unfold dispatchTo
  refine ⟨?_, ?_, ?_, ?_, ?_, ?_, h.rq_sorted⟩
  · exact (updateTid_map_eq s.task_list hd.1 dispatchUpdate (fun u => u.tid)
      (fun u => rfl)) ▸ h.tid_nodup
  · intro u hu
    rcases mem_updateTid hu with ⟨v, hv, rfl⟩
    have := h.tid_lt v hv
    by_cases hvt : v.tid = hd.1
    · rw [if_pos hvt]
      exact this
    · rw [if_neg hvt]
      exact this
  · intro e he
    obtain ⟨u, hu, h1, h2⟩ := h.rq_reg e he
    refine ⟨if u.tid = hd.1 then dispatchUpdate u else u, updateTid_mem hd.1 _ hu, ?_⟩
    by_cases hut : u.tid = hd.1
    · rw [if_pos hut]
      exact ⟨h1, h2⟩
    · rw [if_neg hut]
      exact ⟨h1, h2⟩
  · intro c hcc
    simp only [] at hcc
    have hchd : c = hd.1 := (Option.some.inj hcc).symm
    subst hchd
    refine ⟨if t0.tid = hd.1 then dispatchUpdate t0 else t0, updateTid_mem hd.1 _ ht0, ?_⟩
    by_cases h0 : t0.tid = hd.1
    · rw [if_pos h0]
      exact h0
    · exact absurd ht0tid h0
  · intro c hcc
    simp only [] at hcc
    have hchd : c = hd.1 := (Option.some.inj hcc).symm
    subst hchd
    exact ⟨hd, hhd, rfl⟩
  · intro u hu hr
    rcases mem_updateTid hu with ⟨v, hv, rfl⟩
    by_cases hvt : v.tid = hd.1
    · rw [if_pos hvt] at hr
      exact absurd hr (by simp [dispatchUpdate])
    · rw [if_neg hvt] at hr ⊢
      exact h.ready_rq v hv hr

theorem mp2_inv_sched (s : Mp2Sys) (h : Mp2Inv s) :
    Mp2Inv (mp2_sched_kthread_step s) := by
  cases hrq : s.rq with
  | nil =>
      have he : mp2_sched_kthread_step s = s := by
        unfold mp2_sched_kthread_step
        rw [hrq]
      rw [he]
      exact h
  | cons hd tl =>
      cases hc : s.current with
      | none =>
          have he : mp2_sched_kthread_step s = dispatchTo s hd := by
            unfold mp2_sched_kthread_step
            rw [hrq, hc]
          rw [he]
          exact mp2_inv_dispatch s hd tl h hrq
      | some ctid =>
          have he : mp2_sched_kthread_step s = schedCheckCurrent s hd ctid := by
            unfold mp2_sched_kthread_step
            rw [hrq, hc]
          rw [he]
          unfold schedCheckCurrent
          cases hft : findByTid s.task_list ctid with
          | none => exact mp2_inv_dispatch s hd tl h hrq
          | some c =>
              show Mp2Inv (if hd.2 < c.P then
                  dispatchTo
                    { s with
                      task_list := updateTid s.task_list ctid demoteUpdate,
                      current := none } hd
                else s)
              by_cases hp : hd.2 < c.P
              · rw [if_pos hp]
                exact mp2_inv_dispatch _ hd tl
                  (mp2_inv_demote s ctid h hc) hrq
              · rw [if_neg hp]
                exact h

/-- Removing one node from the run queue and clearing mp2_current
preserves the invariant provided no READY record carries the removed
identity. -/
theorem mp2_inv_remove_clear (s : Mp2Sys) (tid0 n : Nat) (h : Mp2Inv s)
    (hnr : ∀ u ∈ s.task_list, u.state = .ready → u.tid ≠ tid0) :
    Mp2Inv { s with rq := s.rq.filter (fun e => e.1 ≠ tid0), current := none,
                    wakeups := n } := by
  refine ⟨h.tid_nodup, h.tid_lt, ?_, ?_, ?_, ?_, ?_⟩
  · intro e he
    exact h.rq_reg e (List.mem_filter.mp he).1
  · intro c hc
    exact Option.noConfusion hc
  · intro c hc
    exact Option.noConfusion hc
  · intro u hu hr
    obtain ⟨e, he, h1⟩ := h.ready_rq u hu hr
    refine ⟨e, List.mem_filter.mpr ⟨he, ?_⟩, h1⟩
    simp only [decide_eq_true_eq]
    rw [h1]
    exact hnr u hu hr
  · exact h.rq_sorted.sublist (List.filter_sublist s.rq)

theorem mp2_inv_clear_current (s : Mp2Sys) (n : Nat) (h : Mp2Inv s) :
    Mp2Inv { s with current := none, wakeups := n } := by
  refine ⟨h.tid_nodup, h.tid_lt, h.rq_reg, ?_, ?_, h.ready_rq, h.rq_sorted⟩
  · intro c hc
    exact Option.noConfusion hc
  · intro c hc
    exact Option.noConfusion hc

theorem mp2_inv_yield_early (s : Mp2Sys) (tmp : Mp2TaskStruct) (h : Mp2Inv s) :
    Mp2Inv (yieldEarly s tmp) := by
  unfold yieldEarly
  have ha : Mp2Inv { s with
      task_list := updateTid s.task_list tmp.tid (yieldSleepUpdate tmp.next_period) } :=
    mp2_inv_update_no_ready s tmp.tid (yieldSleepUpdate tmp.next_period) h
      (fun u => rfl) (fun u => rfl)
      (fun u hu => by simp [yieldSleepUpdate] at hu)
  by_cases hcur : currentPidIs s tmp.pid
  · rw [if_pos hcur]
    refine mp2_inv_remove_clear _ tmp.tid _ ha ?_
    intro u hu hr
    rcases mem_updateTid hu with ⟨v, hv, rfl⟩
    by_cases hvt : v.tid = tmp.tid
    · rw [if_pos hvt] at hr
      simp [yieldSleepUpdate] at hr
    · rw [if_neg hvt] at hr ⊢
      exact hvt
  · rw [if_neg hcur]
    exact ha

theorem mp2_inv_yield_late (s : Mp2Sys) (tmp : Mp2TaskStruct) (h : Mp2Inv s)
    (htmp : tmp ∈ s.task_list) : Mp2Inv (yieldLate s tmp) := by
  unfold yieldLate
  by_cases hst : tmp.state = .sleeping
  · rw [if_pos hst]
    exact mp2_inv_clear_current _ _ (mp2_inv_add s tmp h htmp)
  · rw [if_neg hst]
    exact mp2_inv_clear_current _ _ h

theorem mp2_inv_yield (s : Mp2Sys) (pid now : Nat) (h : Mp2Inv s) :
    Mp2Inv (mp2_yield_process s pid now) := by
  cases hy : yieldLookup s pid with
  | none =>
      have he : mp2_yield_process s pid now = s := by
        unfold mp2_yield_process
        rw [hy]
      rw [he]
      exact h
  | some tmp =>
      have htmp : tmp ∈ s.task_list := by
        unfold yieldLookup at hy
        by_cases hcp : currentPidIs s pid
        · rw [if_pos hcp] at hy
          cases hc : s.current with
          | none =>
              rw [hc] at hy
              exact Option.noConfusion hy
          | some ctid =>
              rw [hc] at hy
              simp only [Option.some_bind] at hy
              exact (findByTid_mem hy).1
        · rw [if_neg hcp] at hy
          exact (find_mp2_task_by_pid_mem hy).1
      have he : mp2_yield_process s pid now =
          { (if now < tmp.next_period then yieldEarly s tmp else yieldLate s tmp) with
            task_list := updateTid
              (if now < tmp.next_period then yieldEarly s tmp
               else yieldLate s tmp).task_list tmp.tid yieldFinishUpdate } := by
        unfold mp2_yield_process
        rw [hy]
      rw [he]
      have h1 : Mp2Inv (if now < tmp.next_period then yieldEarly s tmp
          else yieldLate s tmp) := by
        by_cases hnow : now < tmp.next_period
        · rw [if_pos hnow]
          exact mp2_inv_yield_early s tmp h
        · rw [if_neg hnow]
          exact mp2_inv_yield_late s tmp h htmp
      exact mp2_inv_update_no_ready _ tmp.tid yieldFinishUpdate h1
        (fun u => rfl) (fun u => rfl) (fun u hu => hu)

/-- Every event of the module preserves the invariant. -/
theorem mp2_inv_step {s s' : Mp2Sys} (h : Mp2Inv s) (hs : Mp2Step s s') : Mp2Inv s' := by
  cases hs with
  | register pid P C now fnd => exact mp2_inv_register s pid P C now fnd h
  | wakeup pid => exact mp2_inv_wakeup s pid h
  | yield pid now => exact mp2_inv_yield s pid now h
  | deregister pid => exact mp2_inv_deregister s pid h
  | sched => exact mp2_inv_sched s h

/-- Every reachable module state satisfies the invariant. -/
theorem mp2_inv_reachable {s : Mp2Sys} (h : Mp2Reachable s) : Mp2Inv s := by
  induction h with
  | init => exact mp2_inv_init
  | step _ hs ih => exact mp2_inv_step ih hs

/-! Helper lemmas for the claim theorems. -/

theorem foldl_add_map {α : Type} (g : α → Nat) (l : List α) (a : Nat) :
    l.foldl (fun acc t => acc + g t) a = a + (l.map g).sum := by
  induction l generalizing a with
  | nil => simp
  | cons x xs ih =>
      simp only [List.foldl_cons, List.map_cons, List.sum_cons]
      rw [ih]
      omega

theorem findByTid_updateTid_next_period (l : List Mp2TaskStruct) (tid0 : Nat)
    (f : Mp2TaskStruct → Mp2TaskStruct) (htid : ∀ u, (f u).tid = u.tid)
    (hnp : ∀ u, (f u).next_period = u.next_period) (tid : Nat) :
    (findByTid (updateTid l tid0 f) tid).map (fun t => t.next_period) =
      (findByTid l tid).map (fun t => t.next_period) := by
  rw [findByTid_updateTid l tid0 f htid tid]
  cases hf : findByTid l tid with
  | none => rfl
  | some t =>
      by_cases ht : t.tid = tid0 <;> simp [ht, hnp]

theorem findByTid_updateTid_ne (l : List Mp2TaskStruct) (tid0 : Nat)
    (f : Mp2TaskStruct → Mp2TaskStruct) (htid : ∀ u, (f u).tid = u.tid)
    (tid : Nat) (hne : tid ≠ tid0) :
    findByTid (updateTid l tid0 f) tid = findByTid l tid := by
  rw [findByTid_updateTid l tid0 f htid tid]
  cases hf : findByTid l tid with
  | none => rfl
  | some t =>
      have := (findByTid_mem hf).2
      have ht : ¬ t.tid = tid0 := by
        rw [this]
        exact hne
      simp [ht]

theorem findByTid_filter_ne (l : List Mp2TaskStruct) (tid0 tid : Nat) (h : tid ≠ tid0) :
    findByTid (l.filter (fun u => u.tid ≠ tid0)) tid = findByTid l tid := by
  induction l with
  | nil => rfl
  | cons x xs ih =>
      rw [List.filter_cons]
      by_cases hx : x.tid = tid0
      · have hd : (decide (x.tid ≠ tid0)) = false := by simp [hx]
        rw [hd]
        simp only [Bool.false_eq_true, if_false]
        rw [ih]
        unfold findByTid
        rw [List.find?_cons_of_neg]
        simp only [decide_eq_true_eq]
        rw [hx]
        exact fun he => h he.symm
      · have hd : (decide (x.tid ≠ tid0)) = true := by simp [hx]
        rw [hd]
        simp only [if_true]
        unfold findByTid at ih ⊢
        by_cases hxt : x.tid = tid
        · rw [List.find?_cons_of_pos, List.find?_cons_of_pos] <;> simp [hxt]
        · rw [List.find?_cons_of_neg, List.find?_cons_of_neg]
          · exact ih
          · simp [hxt]
          · simp [hxt]

theorem findByTid_filter_self (l : List Mp2TaskStruct) (tid0 : Nat) :
    findByTid (l.filter (fun u => u.tid ≠ tid0)) tid0 = none := by
  unfold findByTid
  rw [List.find?_eq_none]
  intro a ha
  have h2 := (List.mem_filter.mp ha).2
  simp only [decide_eq_true_eq] at h2 ⊢
  exact h2

/-! Claim theorems. -/

/-- C1 counterexample.  The claim states that admission control computes
U = 1000*C/P (exact integer arithmetic with truncating division) and
admits iff U is at most 693.  For C = 4294968, P = 1000 the exact value
is 1000*4294968/1000 = 4294968 > 693, so the claim demands rejection,
but the C code computes C*1000 in 32-bit unsigned arithmetic, where the
product wraps to 704 and 704/1000 = 0, and therefore admits. -/
theorem C1_admission_overflow_cex :
    mp2_admission_control 4294968 1000 [] = true ∧ 693 < 4294968 * 1000 / 1000 := by
  constructor
  · decide
  · decide

/-- C1 amended: admission control computes the candidate term and each
registered task's term as ((1000*C) mod 2^32) / P with truncating
division, sums them, and admits exactly when the total is at most 693;
a register request whose total exceeds 693 is rejected and changes
nothing (in particular it allocates no record in the registry). -/
theorem C1_admission_wrapped :
    (∀ (C P : Nat) (l : List Mp2TaskStruct),
      mp2_admission_control C P l = true ↔
        mp2_util C P + (l.map (fun t => mp2_util t.C t.P)).sum ≤ 693) ∧
    (∀ (s : Mp2Sys) (pid P C now : Nat) (fnd : Bool),
      ¬ (mp2_util C P + (s.task_list.map (fun t => mp2_util t.C t.P)).sum ≤ 693) →
      mp2_register_process s pid P C now fnd = s) := by
  have hiff : ∀ (C P : Nat) (l : List Mp2TaskStruct),
      mp2_admission_control C P l = true ↔
        mp2_util C P + (l.map (fun t => mp2_util t.C t.P)).sum ≤ 693 := by
    intro C P l
    unfold mp2_admission_control
    rw [foldl_add_map]
    by_cases hlt : 693 < mp2_util C P + (l.map (fun t => mp2_util t.C t.P)).sum
    · rw [if_pos hlt]
      constructor
      · intro hf
        exact Bool.noConfusion hf
      · intro hle
        omega
    · rw [if_neg hlt]
      constructor
      · intro _
        omega
      · intro _
        rfl
  refine ⟨hiff, ?_⟩
  intro s pid P C now fnd hgt
  have hadm : mp2_admission_control C P s.task_list = false := by
    unfold mp2_admission_control
    rw [foldl_add_map]
    rw [if_pos (by omega :
      693 < mp2_util C P + (s.task_list.map (fun t => mp2_util t.C t.P)).sum)]
  unfold mp2_register_process
  rw [if_pos hadm]

/-- C1 witness: with one registered task of utilization 500 the
admission iff evaluates as stated, and a candidate pushing the total to
1200 is rejected with the state unchanged. -/
theorem C1_admission_wrapped_witness :
    (mp2_admission_control 700 1000 [] = true ↔
      mp2_util 700 1000 + (([] : List Mp2TaskStruct).map (fun t => mp2_util t.C t.P)).sum ≤ 693) ∧
    mp2_register_process (mp2_register_process mp2_init 1 1000 500 0 true) 2 1000 700 0 true =
      mp2_register_process mp2_init 1 1000 500 0 true := by
  constructor
  · exact C1_admission_wrapped.1 700 1000 []
  · exact C1_admission_wrapped.2 (mp2_register_process mp2_init 1 1000 500 0 true)
      2 1000 700 0 true (by decide)

theorem yieldLookup_mem {s : Mp2Sys} {pid : Nat} {tmp : Mp2TaskStruct}
    (hy : yieldLookup s pid = some tmp) : tmp ∈ s.task_list := by
  unfold yieldLookup at hy
  by_cases hcp : currentPidIs s pid
  · rw [if_pos hcp] at hy
    cases hc : s.current with
    | none =>
        rw [hc] at hy
        exact Option.noConfusion hy
    | some ctid =>
        rw [hc] at hy
        simp only [Option.some_bind] at hy
        exact (findByTid_mem hy).1
  · rw [if_neg hcp] at hy
    exact (find_mp2_task_by_pid_mem hy).1

/-- C2: in a dispatcher cycle with a current task (found as record c)
and the run-queue head hd, the cycle is a no-op when the current task's
period is at most the head's, and otherwise the current task ends up
READY with baseline priority while remaining present in the run queue,
and the head is recorded as current and set RUNNING. -/
theorem C2_dispatcher_preemption (s : Mp2Sys) (ctid : Nat) (c : Mp2TaskStruct)
    (hd : Nat × Nat) (tl : List (Nat × Nat))
    (hinv : Mp2Inv s) (hcur : s.current = some ctid)
    (hc : findByTid s.task_list ctid = some c) (hrq : s.rq = hd :: tl) :
    (c.P ≤ hd.2 → mp2_sched_kthread_step s = s) ∧
    (hd.2 < c.P →
      (∃ r ∈ (mp2_sched_kthread_step s).task_list,
          r.tid = ctid ∧ r.state = .ready ∧ r.policy = .normal ∧ r.rt_priority = 0) ∧
      (∃ e ∈ (mp2_sched_kthread_step s).rq, e.1 = ctid) ∧
      (mp2_sched_kthread_step s).current = some hd.1 ∧
      (∃ u ∈ (mp2_sched_kthread_step s).task_list, u.tid = hd.1 ∧ u.state = .running)) := by
  have he : mp2_sched_kthread_step s = schedCheckCurrent s hd ctid := by
    unfold mp2_sched_kthread_step
    rw [hrq, hcur]
  have hhd : hd ∈ s.rq := by
    rw [hrq]
    exact List.mem_cons_self hd tl
  obtain ⟨t0, ht0, ht0tid, ht0P⟩ := hinv.rq_reg hd hhd
  have hcm := findByTid_mem hc
  constructor
  · intro hle
    rw [he]
    unfold schedCheckCurrent
    rw [hc]
    show (if hd.2 < c.P then
        dispatchTo { s with task_list := updateTid s.task_list ctid demoteUpdate,
                            current := none } hd
      else s) = s
    rw [if_neg (by omega)]
  · intro hlt
    have hne : ctid ≠ hd.1 := by
      intro heq
      have hceq : c = t0 :=
        List.inj_on_of_nodup_map hinv.tid_nodup hcm.1 ht0 (by rw [hcm.2, ht0tid, heq])
      rw [hceq] at hlt
      omega
    have hstep : mp2_sched_kthread_step s =
        dispatchTo { s with task_list := updateTid s.task_list ctid demoteUpdate,
                            current := none } hd := by
      rw [he]
      unfold schedCheckCurrent
      rw [hc]
      show (if hd.2 < c.P then
          dispatchTo { s with task_list := updateTid s.task_list ctid demoteUpdate,
                              current := none } hd
        else s) =
        dispatchTo { s with task_list := updateTid s.task_list ctid demoteUpdate,
                            current := none } hd
      rw [if_pos hlt]
    rw [hstep]
    unfold dispatchTo
    refine ⟨?_, ?_, rfl, ?_⟩
    · have hm1 : demoteUpdate c ∈ updateTid s.task_list ctid demoteUpdate := by
        have hmm := updateTid_mem ctid demoteUpdate hcm.1
        rw [if_pos hcm.2] at hmm
        exact hmm
      have hm2 : demoteUpdate c ∈
          updateTid (updateTid s.task_list ctid demoteUpdate) hd.1 dispatchUpdate := by
        have hmm := updateTid_mem hd.1 dispatchUpdate hm1
        rw [if_neg (by
          show ¬ (demoteUpdate c).tid = hd.1
          rw [show (demoteUpdate c).tid = c.tid from rfl, hcm.2]
          exact hne)] at hmm
        exact hmm
      exact ⟨demoteUpdate c, hm2,
        by rw [show (demoteUpdate c).tid = c.tid from rfl, hcm.2], rfl, rfl, rfl⟩
    · obtain ⟨e, hee, h1⟩ := hinv.cur_rq ctid hcur
      exact ⟨e, hee, h1⟩
    · have hm1 : t0 ∈ updateTid s.task_list ctid demoteUpdate := by
        have hmm := updateTid_mem ctid demoteUpdate ht0
        rw [if_neg (by
          rw [ht0tid]
          exact fun hh => hne hh.symm)] at hmm
        exact hmm
      have hm2 : dispatchUpdate t0 ∈
          updateTid (updateTid s.task_list ctid demoteUpdate) hd.1 dispatchUpdate := by
        have hmm := updateTid_mem hd.1 dispatchUpdate hm1
        rw [if_pos ht0tid] at hmm
        exact hmm
      exact ⟨dispatchUpdate t0, hm2,
        by rw [show (dispatchUpdate t0).tid = t0.tid from rfl, ht0tid], rfl⟩

/-- Concrete scenario for the C2 witness: task 1 (P = 50) is dispatched
and RUNNING when task 2 (P = 20) is released; the run queue head is then
(tid 1, P 20) while tid 0 is current. -/
def c2_s : Mp2Sys :=
  wakeup_timer_handler
    (mp2_sched_kthread_step
      (wakeup_timer_handler
        (mp2_register_process (mp2_register_process mp2_init 1 50 10 0 true) 2 20 2 0 true)
        1))
    2

theorem c2_s_reachable : Mp2Reachable c2_s :=
  Mp2Reachable.step
    (Mp2Reachable.step
      (Mp2Reachable.step
        (Mp2Reachable.step
          (Mp2Reachable.step Mp2Reachable.init (Mp2Step.register mp2_init 1 50 10 0 true))
          (Mp2Step.register _ 2 20 2 0 true))
        (Mp2Step.wakeup _ 1))
      (Mp2Step.sched _))
    (Mp2Step.wakeup _ 2)

/-- C2 witness at the concrete scenario. -/
theorem C2_dispatcher_preemption_witness :
    (20 : Nat) < 50 ∧
    ((∃ r ∈ (mp2_sched_kthread_step c2_s).task_list,
        r.tid = 0 ∧ r.state = .ready ∧ r.policy = .normal ∧ r.rt_priority = 0) ∧
      (∃ e ∈ (mp2_sched_kthread_step c2_s).rq, e.1 = 0) ∧
      (mp2_sched_kthread_step c2_s).current = some 1 ∧
      (∃ u ∈ (mp2_sched_kthread_step c2_s).task_list, u.tid = 1 ∧ u.state = .running)) := by
  refine ⟨by decide, ?_⟩
  have h := C2_dispatcher_preemption c2_s 0
    ⟨0, 1, 10, 50, .running, 100, none, .fifo, 99, false⟩ (1, 20) [(0, 50)]
    (mp2_inv_reachable c2_s_reachable) (by decide) (by decide) (by decide)
  exact h.2 (by decide)

/-- Concrete single-task scenario used for C3: one task (P = 30) is
registered and released, so the run queue holds exactly its node. -/
def c3_s : Mp2Sys :=
  wakeup_timer_handler (mp2_register_process mp2_init 3 30 3 0 true) 3

/-- C3 counterexample.  The claim states the dispatcher removes the
head task from the run queue when it dispatches it.  In the reachable
state below the dispatcher has just dispatched the only task (it is
RUNNING and recorded as current), yet its node (0, 30) is still in the
run queue: the code never removes the dispatched node. -/
theorem C3_dispatch_no_remove_cex :
    Mp2Reachable (mp2_sched_kthread_step c3_s) ∧
    (mp2_sched_kthread_step c3_s).current = some 0 ∧
    (∃ u ∈ (mp2_sched_kthread_step c3_s).task_list, u.tid = 0 ∧ u.state = .running) ∧
    (0, 30) ∈ (mp2_sched_kthread_step c3_s).rq := by
  refine ⟨?_, by decide, by decide, by decide⟩
  exact Mp2Reachable.step
    (Mp2Reachable.step
      (Mp2Reachable.step Mp2Reachable.init (Mp2Step.register mp2_init 3 30 3 0 true))
      (Mp2Step.wakeup _ 3))
    (Mp2Step.sched _)

/-- C3 amended: in a dispatcher cycle with no current task and head hd
resolving to record t, the dispatcher leaves the run queue unchanged
(the dispatched task stays in it), records the head as current, and the
head's record becomes RUNNING, resumed, at SCHED_FIFO priority
MAX_USER_RT_PRIO - 1, with next_period advanced by exactly its own
period. -/
theorem C3_dispatch_behavior (s : Mp2Sys) (hd : Nat × Nat) (tl : List (Nat × Nat))
    (t : Mp2TaskStruct) (hrq : s.rq = hd :: tl) (hcur : s.current = none)
    (ht : findByTid s.task_list hd.1 = some t) :
    (mp2_sched_kthread_step s).rq = s.rq ∧
    (mp2_sched_kthread_step s).current = some hd.1 ∧
    findByTid (mp2_sched_kthread_step s).task_list hd.1 =
      some { t with suspended := false, policy := .fifo,
                    rt_priority := MAX_USER_RT_PRIO - 1, state := .running,
                    next_period := t.next_period + t.P } := by
  have he : mp2_sched_kthread_step s = dispatchTo s hd := by
    unfold mp2_sched_kthread_step
    rw [hrq, hcur]
  rw [he]
  unfold dispatchTo
  refine ⟨rfl, rfl, ?_⟩
  show findByTid (updateTid s.task_list hd.1 dispatchUpdate) hd.1 = some (dispatchUpdate t)
  rw [findByTid_updateTid s.task_list hd.1 dispatchUpdate (fun u => rfl) hd.1, ht]
  simp [(findByTid_mem ht).2]

/-- C3 witness at the concrete single-task scenario. -/
theorem C3_dispatch_behavior_witness :
    (mp2_sched_kthread_step c3_s).rq = c3_s.rq ∧
    (mp2_sched_kthread_step c3_s).current = some 0 ∧
    findByTid (mp2_sched_kthread_step c3_s).task_list 0 =
      some ⟨0, 3, 3, 30, .running, 60, none, .fifo, 99, false⟩ :=
  C3_dispatch_behavior c3_s (0, 30) [] ⟨0, 3, 3, 30, .ready, 30, none, .normal, 0, false⟩
    (by decide) (by decide) (by decide)

/-- Concrete single-task scenario used for C4. -/
def c4_s : Mp2Sys :=
  mp2_sched_kthread_step (wakeup_timer_handler (mp2_register_process mp2_init 1 10 1 0 true) 1)

/-- C4 counterexample.  The claim states a task is in the run queue if
and only if its state is READY, so in particular a RUNNING task is
never a member.  In the reachable state below the dispatched task is
RUNNING and its node is still in the run queue. -/
theorem C4_running_in_rq_cex :
    Mp2Reachable c4_s ∧
    ∃ t ∈ c4_s.task_list, t.state = .running ∧ ∃ e ∈ c4_s.rq, e.1 = t.tid := by
  refine ⟨?_, by decide⟩
  exact Mp2Reachable.step
    (Mp2Reachable.step
      (Mp2Reachable.step Mp2Reachable.init (Mp2Step.register mp2_init 1 10 1 0 true))
      (Mp2Step.wakeup _ 1))
    (Mp2Step.sched _)

/-- C4 amended: at every reachable state, every READY task is in the
run queue; the converse direction of the claim fails because the
dispatched RUNNING task remains in the queue. -/
theorem C4_ready_in_rq (s : Mp2Sys) (h : Mp2Reachable s) :
    ∀ t ∈ s.task_list, t.state = .ready → ∃ e ∈ s.rq, e.1 = t.tid :=
  fun t ht hr => (mp2_inv_reachable h).ready_rq t ht hr

/-- Concrete scenario for the C4 witness: one released (READY) task. -/
def c4_w : Mp2Sys :=
  wakeup_timer_handler (mp2_register_process mp2_init 1 10 1 0 true) 1

/-- C4 witness at the concrete scenario. -/
theorem C4_ready_in_rq_witness :
    ∃ e ∈ c4_w.rq, e.1 = 0 :=
  C4_ready_in_rq c4_w
    (Mp2Reachable.step
      (Mp2Reachable.step Mp2Reachable.init (Mp2Step.register mp2_init 1 10 1 0 true))
      (Mp2Step.wakeup _ 1))
    ⟨0, 1, 1, 10, .ready, 10, none, .normal, 0, false⟩ (by decide) (by decide)

/-- C5: at every reachable state the run queue is sorted by ascending
period, and on a sorted queue the ordered insert places the new entry
exactly after all entries with period at most its own (preserving their
order, hence FIFO among equal periods) and before all entries with
strictly greater period. -/
theorem C5_rq_sorted_fifo :
    (∀ s : Mp2Sys, Mp2Reachable s → s.rq.Pairwise (fun a b => a.2 ≤ b.2)) ∧
    (∀ (l : List (Nat × Nat)) (e : Nat × Nat),
      l.Pairwise (fun a b => a.2 ≤ b.2) →
      rqInsert l e = l.filter (fun x => x.2 ≤ e.2) ++ e :: l.filter (fun x => e.2 < x.2)) :=
  ⟨fun _ h => (mp2_inv_reachable h).rq_sorted, fun _ e h => rqInsert_span e h⟩

/-- Concrete two-task scenario used for the C5 witness. -/
def c5_s : Mp2Sys :=
  wakeup_timer_handler
    (wakeup_timer_handler
      (mp2_register_process (mp2_register_process mp2_init 1 40 4 0 true) 2 15 1 0 true)
      1)
    2

/-- C5 witness: the concrete reachable queue is sorted, and inserting a
tying entry after a sorted queue lands behind the earlier equal-period
entry. -/
theorem C5_rq_sorted_fifo_witness :
    c5_s.rq.Pairwise (fun a b => a.2 ≤ b.2) ∧
    rqInsert [(5, 10), (6, 20)] (7, 20) =
      [(5, 10), (6, 20)].filter (fun x => x.2 ≤ (7, 20).2) ++
        (7, 20) :: [(5, 10), (6, 20)].filter (fun x => (7, 20).2 < x.2) :=
  ⟨C5_rq_sorted_fifo.1 c5_s
      (Mp2Reachable.step
        (Mp2Reachable.step
          (Mp2Reachable.step
            (Mp2Reachable.step Mp2Reachable.init (Mp2Step.register mp2_init 1 40 4 0 true))
            (Mp2Step.register _ 2 15 1 0 true))
          (Mp2Step.wakeup _ 1))
        (Mp2Step.wakeup _ 2)),
    C5_rq_sorted_fifo.2 [(5, 10), (6, 20)] (7, 20) (by decide)⟩

/-- C6 counterexample.  The claim states that on successful
registration the release timer is armed so that the callback fires at
now + period_ms.  After a successful registration the new record has
next_period = now + P but its timer is not pending (setup_timer only
initializes it): no timer is armed at registration. -/
theorem C6_register_timer_unarmed_cex :
    (mp2_register_process mp2_init 1 100 20 0 true).task_list.map
      (fun t => (t.pid, t.next_period, t.timer)) = [(1, 100, none)] := by
  decide

/-- C6 amended: a successful registration at time now appends a record
with next_release = now + P and state SLEEPING, whose wakeup timer is
initialized but not armed; the timer is first armed when the task
yields before its period boundary. -/
theorem C6_register_first_release (s : Mp2Sys) (pid P C now : Nat)
    (hadm : mp2_admission_control C P s.task_list = true) :
    ∃ u ∈ (mp2_register_process s pid P C now true).task_list,
      u.pid = pid ∧ u.next_period = now + P ∧ u.state = .sleeping ∧ u.timer = none := by
  unfold mp2_register_process
  rw [if_neg (by
    rw [hadm]
    exact fun hh => Bool.noConfusion hh)]
  rw [if_neg (fun hh => Bool.noConfusion hh)]
  refine ⟨⟨s.next_tid, pid, C, P, .sleeping, now + P, none, .normal, 0, false⟩, ?_,
    rfl, rfl, rfl, rfl⟩
  exact List.mem_append.mpr (Or.inr (List.mem_singleton.mpr rfl))

/-- C6 witness at a concrete registration. -/
theorem C6_register_first_release_witness :
    ∃ u ∈ (mp2_register_process mp2_init 9 100 20 7 true).task_list,
      u.pid = 9 ∧ u.next_period = 7 + 100 ∧ u.state = .sleeping ∧ u.timer = none :=
  C6_register_first_release mp2_init 9 100 20 7 (by decide)

/-- Concrete scenario for the C7 counterexample: one released (READY,
queued, not current) task. -/
def c7_s : Mp2Sys :=
  wakeup_timer_handler (mp2_register_process mp2_init 1 10 1 0 true) 1

/-- C7 counterexample.  The claim states that an early yield (now
strictly before next_release) removes the task from the run queue
whether or not it is the currently running task.  Here a READY task
that is not current yields at time 5 < 10 = next_release: it becomes
SLEEPING but its node (0, 10) is still in the run queue, because the
code removes it only when the yielder is mp2_current. -/
theorem C7_yield_early_no_remove_cex :
    ((5 : Nat) < 10 ∧ (0, 10) ∈ c7_s.rq ∧ currentPidIs c7_s 1 = false) ∧
    (∃ u ∈ (mp2_yield_process c7_s 1 5).task_list, u.tid = 0 ∧ u.state = .sleeping) ∧
    (0, 10) ∈ (mp2_yield_process c7_s 1 5).rq := by
  decide

/-- C7 amended: an early yield (now strictly before next_period) puts
the looked-up task to SLEEPING with its timer armed to fire at
next_release, at baseline priority and suspended; it removes the task
from the run queue, clears mp2_current and signals the dispatcher only
when the yielder is the currently running task, and leaves the run
queue, mp2_current and the signal count unchanged otherwise. -/
theorem C7_yield_early_behavior (s : Mp2Sys) (pid now : Nat) (tmp : Mp2TaskStruct)
    (hy : yieldLookup s pid = some tmp) (hnow : now < tmp.next_period) :
    (∃ u ∈ (mp2_yield_process s pid now).task_list,
        u.tid = tmp.tid ∧ u.state = .sleeping ∧ u.timer = some tmp.next_period ∧
        u.policy = .normal ∧ u.rt_priority = 0 ∧ u.suspended = true) ∧
    (currentPidIs s tmp.pid = true →
      (mp2_yield_process s pid now).rq = s.rq.filter (fun e => e.1 ≠ tmp.tid) ∧
      (mp2_yield_process s pid now).current = none ∧
      (mp2_yield_process s pid now).wakeups = s.wakeups + 1) ∧
    (currentPidIs s tmp.pid = false →
      (mp2_yield_process s pid now).rq = s.rq ∧
      (mp2_yield_process s pid now).current = s.current ∧
      (mp2_yield_process s pid now).wakeups = s.wakeups) := by
  have htmp : tmp ∈ s.task_list := yieldLookup_mem hy
  have he0 : mp2_yield_process s pid now =
      { (if now < tmp.next_period then yieldEarly s tmp else yieldLate s tmp) with
        task_list := updateTid
          (if now < tmp.next_period then yieldEarly s tmp else yieldLate s tmp).task_list
          tmp.tid yieldFinishUpdate } := by
    unfold mp2_yield_process
    rw [hy]
  rw [if_pos hnow] at he0
  have hmem : yieldFinishUpdate (yieldSleepUpdate tmp.next_period tmp) ∈
      updateTid (updateTid s.task_list tmp.tid (yieldSleepUpdate tmp.next_period))
        tmp.tid yieldFinishUpdate := by
    have hm1 : yieldSleepUpdate tmp.next_period tmp ∈
        updateTid s.task_list tmp.tid (yieldSleepUpdate tmp.next_period) := by
      have hmm := updateTid_mem tmp.tid (yieldSleepUpdate tmp.next_period) htmp
      rw [if_pos rfl] at hmm
      exact hmm
    have hmm := updateTid_mem tmp.tid yieldFinishUpdate hm1
    rw [if_pos (show (yieldSleepUpdate tmp.next_period tmp).tid = tmp.tid from rfl)] at hmm
    exact hmm
  cases hcur : currentPidIs s tmp.pid with
  | true =>
      have hee : yieldEarly s tmp =
          { s with
            task_list := updateTid s.task_list tmp.tid (yieldSleepUpdate tmp.next_period),
            rq := s.rq.filter (fun e => e.1 ≠ tmp.tid),
            current := none,
            wakeups := s.wakeups + 1 } := by
        unfold yieldEarly
        rw [if_pos hcur]
      rw [hee] at he0
      rw [he0]
      refine ⟨⟨yieldFinishUpdate (yieldSleepUpdate tmp.next_period tmp), hmem,
        rfl, rfl, rfl, rfl, rfl, rfl⟩, ?_, ?_⟩
      · intro _
        exact ⟨rfl, rfl, rfl⟩
      · intro hf
        exact Bool.noConfusion hf
  | false =>
      have hee : yieldEarly s tmp =
          { s with
            task_list := updateTid s.task_list tmp.tid (yieldSleepUpdate tmp.next_period) } := by
        unfold yieldEarly
        rw [if_neg (by
          rw [hcur]
          exact fun hh => Bool.noConfusion hh)]
      rw [hee] at he0
      rw [he0]
      refine ⟨⟨yieldFinishUpdate (yieldSleepUpdate tmp.next_period tmp), hmem,
        rfl, rfl, rfl, rfl, rfl, rfl⟩, ?_, ?_⟩
      · intro hf
        exact Bool.noConfusion hf
      · intro _
        exact ⟨rfl, rfl, rfl⟩

/-- Concrete scenario for the C7 witness: the single task has been
dispatched (RUNNING, current, next_period 20) and yields at time 5. -/
def c7_w : Mp2Sys :=
  mp2_sched_kthread_step (wakeup_timer_handler (mp2_register_process mp2_init 1 10 1 0 true) 1)

/-- C7 witness at the concrete scenario. -/
theorem C7_yield_early_behavior_witness :
    (∃ u ∈ (mp2_yield_process c7_w 1 5).task_list,
        u.tid = 0 ∧ u.state = .sleeping ∧ u.timer = some 20 ∧
        u.policy = .normal ∧ u.rt_priority = 0 ∧ u.suspended = true) ∧
    (currentPidIs c7_w 1 = true →
      (mp2_yield_process c7_w 1 5).rq = c7_w.rq.filter (fun e => e.1 ≠ 0) ∧
      (mp2_yield_process c7_w 1 5).current = none ∧
      (mp2_yield_process c7_w 1 5).wakeups = c7_w.wakeups + 1) ∧
    (currentPidIs c7_w 1 = false →
      (mp2_yield_process c7_w 1 5).rq = c7_w.rq ∧
      (mp2_yield_process c7_w 1 5).current = c7_w.current ∧
      (mp2_yield_process c7_w 1 5).wakeups = c7_w.wakeups) :=
  C7_yield_early_behavior c7_w 1 5 ⟨0, 1, 1, 10, .running, 20, none, .fifo, 99, false⟩
    (by decide) (by decide)

/-- Concrete scenario for C8: task 1 (pid 1) is dispatched and current;
task 2 (pid 2, next_period 20) is SLEEPING and then yields at time 25,
past its period boundary. -/
def c8_s : Mp2Sys :=
  mp2_sched_kthread_step
    (wakeup_timer_handler
      (mp2_register_process (mp2_register_process mp2_init 1 10 1 0 true) 2 20 1 0 true)
      1)

/-- C8: the claim (and the spec's stated intent) is that a late yield
clears the currently-running slot only when the yielder is the task
recorded as current.  In the state below pid 1 is current and pid 2,
which is not current, yields at time 25 with its period boundary 20
already passed; the code nevertheless sets mp2_current to NULL.  This
evaluates the code at the failing input of the code_bug verdict. -/
theorem C8_late_yield_clears_current :
    Mp2Reachable c8_s ∧
    c8_s.current = some 0 ∧
    currentPidIs c8_s 2 = false ∧
    (∃ u ∈ c8_s.task_list, u.pid = 2 ∧ u.next_period ≤ 25) ∧
    (mp2_yield_process c8_s 2 25).current = none := by
  refine ⟨?_, by decide, by decide, by decide, by decide⟩
  exact Mp2Reachable.step
    (Mp2Reachable.step
      (Mp2Reachable.step
        (Mp2Reachable.step Mp2Reachable.init (Mp2Step.register mp2_init 1 10 1 0 true))
        (Mp2Step.register _ 2 20 1 0 true))
      (Mp2Step.wakeup _ 1))
    (Mp2Step.sched _)

/-- C9 counterexample.  The claim states a second register with a live
id fails with DuplicateId and adds no second record.  Registering pid 1
twice (each admitted: 100 + 100 is at most 693) yields a registry with
two records for pid 1: the code has no duplicate check. -/
theorem C9_duplicate_register_cex :
    ((mp2_register_process (mp2_register_process mp2_init 1 1000 100 0 true)
        1 1000 100 0 true).task_list.map (fun t => t.pid)) = [1, 1] := by
  decide

/-- C9 amended: register performs no duplicate-id check; when the id is
already live (its count in the registry is positive) and the candidate
passes admission control, the call appends one more record with that
id. -/
theorem C9_register_no_duplicate_check (s : Mp2Sys) (pid P C now : Nat)
    (t : Mp2TaskStruct) (ht : t ∈ s.task_list) (hpid : t.pid = pid)
    (hadm : mp2_admission_control C P s.task_list = true) :
    0 < s.task_list.countP (fun u => u.pid = pid) ∧
    (mp2_register_process s pid P C now true).task_list.countP (fun u => u.pid = pid) =
      s.task_list.countP (fun u => u.pid = pid) + 1 := by
  constructor
  · rw [List.countP_pos_iff]
    exact ⟨t, ht, by simp [hpid]⟩
  · unfold mp2_register_process
    rw [if_neg (by
      rw [hadm]
      exact fun hh => Bool.noConfusion hh)]
    rw [if_neg (fun hh => Bool.noConfusion hh)]
    show (s.task_list ++
        [(⟨s.next_tid, pid, C, P, .sleeping, now + P, none, .normal, 0,
          false⟩ : Mp2TaskStruct)]).countP (fun u => u.pid = pid) =
      s.task_list.countP (fun u => u.pid = pid) + 1
    rw [List.countP_append]
    simp

/-- C9 witness: a second registration of pid 1 on top of a live pid 1. -/
theorem C9_register_no_duplicate_check_witness :
    0 < (mp2_register_process mp2_init 1 1000 100 0 true).task_list.countP
        (fun u => u.pid = 1) ∧
    (mp2_register_process (mp2_register_process mp2_init 1 1000 100 0 true)
        1 1000 100 0 true).task_list.countP (fun u => u.pid = 1) =
      (mp2_register_process mp2_init 1 1000 100 0 true).task_list.countP
        (fun u => u.pid = 1) + 1 :=
  C9_register_no_duplicate_check (mp2_register_process mp2_init 1 1000 100 0 true)
    1 1000 100 0 ⟨0, 1, 100, 1000, .sleeping, 1000, none, .normal, 0, false⟩
    (by decide) (by decide) (by decide)

theorem findByTid_updateTid_np_P (l : List Mp2TaskStruct) (tid0 : Nat)
    (f : Mp2TaskStruct → Mp2TaskStruct) (htid : ∀ u, (f u).tid = u.tid)
    (hnp : ∀ u, (f u).next_period = u.next_period) (hP : ∀ u, (f u).P = u.P) (tid : Nat) :
    (findByTid (updateTid l tid0 f) tid).map (fun u => (u.next_period, u.P)) =
      (findByTid l tid).map (fun u => (u.next_period, u.P)) := by
  rw [findByTid_updateTid l tid0 f htid tid]
  cases hf : findByTid l tid with
  | none => rfl
  | some t =>
      by_cases ht : t.tid = tid0 <;> simp [ht, hnp, hP]

/-- C10: the next_period field of a task is preserved by the wakeup
timer handler, by yield in both branches, by deregistration (for every
surviving task) and by registration (for every pre-existing task); a
dispatcher pass changes next_period only for the run-queue head it
dispatches, and then by exactly that task's own period, which is also
what happens whenever the head is dispatched with no current task. -/
theorem C10_next_period_frame :
    (∀ (s : Mp2Sys) (pid tid : Nat),
      taskNextPeriod (wakeup_timer_handler s pid) tid = taskNextPeriod s tid) ∧
    (∀ (s : Mp2Sys) (pid now tid : Nat),
      taskNextPeriod (mp2_yield_process s pid now) tid = taskNextPeriod s tid) ∧
    (∀ (s : Mp2Sys) (pid tid : Nat),
      taskNextPeriod (mp2_deregister_process s pid) tid = taskNextPeriod s tid ∨
        taskNextPeriod (mp2_deregister_process s pid) tid = none) ∧
    (∀ (s : Mp2Sys) (pid P C now : Nat) (fnd : Bool) (tid v : Nat),
      taskNextPeriod s tid = some v →
      taskNextPeriod (mp2_register_process s pid P C now fnd) tid = some v) ∧
    (∀ (s : Mp2Sys) (tid : Nat),
      taskNextPeriod (mp2_sched_kthread_step s) tid = taskNextPeriod s tid ∨
        ∃ hd tl t, s.rq = hd :: tl ∧ tid = hd.1 ∧ findByTid s.task_list tid = some t ∧
          taskNextPeriod (mp2_sched_kthread_step s) tid = some (t.next_period + t.P)) ∧
    (∀ (s : Mp2Sys) (hd : Nat × Nat) (tl : List (Nat × Nat)) (t : Mp2TaskStruct),
      s.rq = hd :: tl → s.current = none → findByTid s.task_list hd.1 = some t →
      taskNextPeriod (mp2_sched_kthread_step s) hd.1 = some (t.next_period + t.P)) := by
  have hwake : ∀ (s : Mp2Sys) (pid tid : Nat),
      taskNextPeriod (wakeup_timer_handler s pid) tid = taskNextPeriod s tid := by
    intro s pid tid
    cases hf : find_mp2_task_by_pid s.task_list pid with
    | none =>
        have he : wakeup_timer_handler s pid = s := by
          unfold wakeup_timer_handler
          rw [hf]
        rw [he]
    | some t =>
        have he : wakeup_timer_handler s pid =
            { mp2_add_task_to_rq s t with wakeups := (mp2_add_task_to_rq s t).wakeups + 1 } := by
          unfold wakeup_timer_handler
          rw [hf]
        rw [he]
        exact findByTid_updateTid_next_period s.task_list t.tid
          (fun u => { u with state := .ready }) (fun u => rfl) (fun u => rfl) tid
  have hyld : ∀ (s : Mp2Sys) (pid now tid : Nat),
      taskNextPeriod (mp2_yield_process s pid now) tid = taskNextPeriod s tid := by
    intro s pid now tid
    cases hy : yieldLookup s pid with
    | none =>
        have he : mp2_yield_process s pid now = s := by
          unfold mp2_yield_process
          rw [hy]
        rw [he]
    | some tmp =>
        have he0 : mp2_yield_process s pid now =
            { (if now < tmp.next_period then yieldEarly s tmp else yieldLate s tmp) with
              task_list := updateTid
                (if now < tmp.next_period then yieldEarly s tmp
                 else yieldLate s tmp).task_list tmp.tid yieldFinishUpdate } := by
          unfold mp2_yield_process
          rw [hy]
        rw [he0]
        have hearly : taskNextPeriod (yieldEarly s tmp) tid = taskNextPeriod s tid := by
          unfold yieldEarly
          by_cases hcur : currentPidIs s tmp.pid
          · rw [if_pos hcur]
            exact findByTid_updateTid_next_period s.task_list tmp.tid
              (yieldSleepUpdate tmp.next_period) (fun u => rfl) (fun u => rfl) tid
          · rw [if_neg hcur]
            exact findByTid_updateTid_next_period s.task_list tmp.tid
              (yieldSleepUpdate tmp.next_period) (fun u => rfl) (fun u => rfl) tid
        have hlate : taskNextPeriod (yieldLate s tmp) tid = taskNextPeriod s tid := by
          unfold yieldLate
          by_cases hst : tmp.state = .sleeping
          · rw [if_pos hst]
            exact findByTid_updateTid_next_period s.task_list tmp.tid
              (fun u => { u with state := .ready }) (fun u => rfl) (fun u => rfl) tid
          · rw [if_neg hst]
            rfl
        have hfin : ∀ x : Mp2Sys,
            taskNextPeriod
                { x with task_list := updateTid x.task_list tmp.tid yieldFinishUpdate } tid =
              taskNextPeriod x tid := fun x =>
          findByTid_updateTid_next_period x.task_list tmp.tid yieldFinishUpdate
            (fun u => rfl) (fun u => rfl) tid
        rw [hfin (if now < tmp.next_period then yieldEarly s tmp else yieldLate s tmp)]
        by_cases hnow : now < tmp.next_period
        · rw [if_pos hnow]
          exact hearly
        · rw [if_neg hnow]
          exact hlate
  have hder : ∀ (s : Mp2Sys) (pid tid : Nat),
      taskNextPeriod (mp2_deregister_process s pid) tid = taskNextPeriod s tid ∨
        taskNextPeriod (mp2_deregister_process s pid) tid = none := by
    intro s pid tid
    cases hf : find_mp2_task_by_pid s.task_list pid with
    | none =>
        left
        have he : mp2_deregister_process s pid = s := by
          unfold mp2_deregister_process
          rw [hf]
        rw [he]
    | some t =>
        have he : mp2_deregister_process s pid =
            { s with
              rq := s.rq.filter (fun e => e.1 ≠ t.tid),
              task_list := s.task_list.filter (fun u => u.tid ≠ t.tid),
              current := if s.current = some t.tid then none else s.current,
              wakeups := s.wakeups + 1 } := by
          unfold mp2_deregister_process
          rw [hf]
        rw [he]
        by_cases htid : tid = t.tid
        · right
          rw [htid]
          show (findByTid (s.task_list.filter (fun u => u.tid ≠ t.tid)) t.tid).map
            (fun u => u.next_period) = none
          rw [findByTid_filter_self]
          rfl
        · left
          show (findByTid (s.task_list.filter (fun u => u.tid ≠ t.tid)) tid).map
            (fun u => u.next_period) = taskNextPeriod s tid
          rw [findByTid_filter_ne s.task_list t.tid tid htid]
          rfl
  have hreg : ∀ (s : Mp2Sys) (pid P C now : Nat) (fnd : Bool) (tid v : Nat),
      taskNextPeriod s tid = some v →
      taskNextPeriod (mp2_register_process s pid P C now fnd) tid = some v := by
    intro s pid P C now fnd tid v hv
    unfold mp2_register_process
    split
    · exact hv
    split
    · exact hv
    show (findByTid (s.task_list ++
        [(⟨s.next_tid, pid, C, P, .sleeping, now + P, none, .normal, 0,
          false⟩ : Mp2TaskStruct)]) tid).map (fun u => u.next_period) = some v
    unfold findByTid
    rw [List.find?_append]
    unfold taskNextPeriod findByTid at hv
    cases hf : s.task_list.find? (fun u => u.tid = tid) with
    | none =>
        rw [hf] at hv
        exact Option.noConfusion hv
    | some u =>
        rw [hf] at hv
        exact hv
  have hsched6 : ∀ (s : Mp2Sys) (hd : Nat × Nat) (tl : List (Nat × Nat))
      (t : Mp2TaskStruct), s.rq = hd :: tl → s.current = none →
      findByTid s.task_list hd.1 = some t →
      taskNextPeriod (mp2_sched_kthread_step s) hd.1 = some (t.next_period + t.P) := by
    intro s hd tl t hrq hcur ht
    have he : mp2_sched_kthread_step s = dispatchTo s hd := by
      unfold mp2_sched_kthread_step
      rw [hrq, hcur]
    rw [he]
    show (findByTid (updateTid s.task_list hd.1 dispatchUpdate) hd.1).map
      (fun u => u.next_period) = some (t.next_period + t.P)
    rw [findByTid_updateTid s.task_list hd.1 dispatchUpdate (fun u => rfl) hd.1, ht]
    simp [(findByTid_mem ht).2, dispatchUpdate]
  have hsched5 : ∀ (s : Mp2Sys) (tid : Nat),
      taskNextPeriod (mp2_sched_kthread_step s) tid = taskNextPeriod s tid ∨
        ∃ hd tl t, s.rq = hd :: tl ∧ tid = hd.1 ∧ findByTid s.task_list tid = some t ∧
          taskNextPeriod (mp2_sched_kthread_step s) tid = some (t.next_period + t.P) := by
    intro s tid
    cases hrq : s.rq with
    | nil =>
        left
        have he : mp2_sched_kthread_step s = s := by
          unfold mp2_sched_kthread_step
          rw [hrq]
        rw [he]
    | cons hd tl =>
        have main : ∀ l' : List Mp2TaskStruct,
            (findByTid l' tid).map (fun u => (u.next_period, u.P)) =
              (findByTid s.task_list tid).map (fun u => (u.next_period, u.P)) →
            ∀ x : Mp2Sys, x.task_list = updateTid l' hd.1 dispatchUpdate →
            (taskNextPeriod x tid = taskNextPeriod s tid ∨
              ∃ hd' tl' t, hd :: tl = hd' :: tl' ∧ tid = hd'.1 ∧
                findByTid s.task_list tid = some t ∧
                taskNextPeriod x tid = some (t.next_period + t.P)) := by
          intro l' ha x hx
          by_cases htid : tid = hd.1
          · cases hs0 : findByTid s.task_list tid with
            | none =>
                left
                rw [hs0] at ha
                have hl' : findByTid l' tid = none := by
                  cases hl : findByTid l' tid with
                  | none => rfl
                  | some u =>
                      rw [hl] at ha
                      exact Option.noConfusion ha
                unfold taskNextPeriod
                rw [hx, htid, findByTid_updateTid l' hd.1 dispatchUpdate (fun u => rfl) hd.1]
                rw [htid] at hl' hs0
                rw [hl', hs0]
                rfl
            | some t =>
                right
                rw [hs0] at ha
                cases hl : findByTid l' tid with
                | none =>
                    rw [hl] at ha
                    exact Option.noConfusion ha
                | some u =>
                    rw [hl] at ha
                    simp only [Option.map_some', Option.some.injEq, Prod.mk.injEq] at ha
                    have hutid : u.tid = tid := (findByTid_mem hl).2
                    refine ⟨hd, tl, t, rfl, htid, rfl, ?_⟩
                    unfold taskNextPeriod
                    rw [hx, htid, findByTid_updateTid l' hd.1 dispatchUpdate (fun u => rfl) hd.1]
                    rw [htid] at hl
                    rw [hl]
                    have hutid2 : u.tid = hd.1 := by
                      rw [hutid, htid]
                    simp [hutid2, dispatchUpdate, ha.1, ha.2]
          · left
            unfold taskNextPeriod
            rw [hx, findByTid_updateTid_ne l' hd.1 dispatchUpdate (fun u => rfl) tid htid]
            cases hl : findByTid l' tid with
            | none =>
                cases hs0 : findByTid s.task_list tid with
                | none => rfl
                | some t =>
                    rw [hl, hs0] at ha
                    exact Option.noConfusion ha
            | some u =>
                cases hs0 : findByTid s.task_list tid with
                | none =>
                    rw [hl, hs0] at ha
                    exact Option.noConfusion ha
                | some t =>
                    rw [hl, hs0] at ha
                    simp only [Option.map_some', Option.some.injEq, Prod.mk.injEq] at ha
                    simp only [Option.map_some']
                    rw [ha.1]
        cases hc : s.current with
        | none =>
            have he : mp2_sched_kthread_step s = dispatchTo s hd := by
              unfold mp2_sched_kthread_step
              rw [hrq, hc]
            rw [he]
            exact main s.task_list rfl (dispatchTo s hd) rfl
        | some ctid =>
            have he : mp2_sched_kthread_step s = schedCheckCurrent s hd ctid := by
              unfold mp2_sched_kthread_step
              rw [hrq, hc]
            cases hft : findByTid s.task_list ctid with
            | none =>
                have he2 : schedCheckCurrent s hd ctid = dispatchTo s hd := by
                  unfold schedCheckCurrent
                  rw [hft]
                rw [he, he2]
                exact main s.task_list rfl (dispatchTo s hd) rfl
            | some c =>
                by_cases hp : hd.2 < c.P
                · have he2 : mp2_sched_kthread_step s =
                      dispatchTo { s with
                        task_list := updateTid s.task_list ctid demoteUpdate,
                        current := none } hd := by
                    rw [he]
                    unfold schedCheckCurrent
                    rw [hft]
                    show (if hd.2 < c.P then
                        dispatchTo { s with
                          task_list := updateTid s.task_list ctid demoteUpdate,
                          current := none } hd
                      else s) =
                      dispatchTo { s with
                        task_list := updateTid s.task_list ctid demoteUpdate,
                        current := none } hd
                    rw [if_pos hp]
                  rw [he2]
                  exact main (updateTid s.task_list ctid demoteUpdate)
                    (findByTid_updateTid_np_P s.task_list ctid demoteUpdate
                      (fun u => rfl) (fun u => rfl) (fun u => rfl) tid)
                    (dispatchTo { s with
                      task_list := updateTid s.task_list ctid demoteUpdate,
                      current := none } hd) rfl
                · left
                  have he2 : mp2_sched_kthread_step s = s := by
                    rw [he]
                    unfold schedCheckCurrent
                    rw [hft]
                    show (if hd.2 < c.P then
                        dispatchTo { s with
                          task_list := updateTid s.task_list ctid demoteUpdate,
                          current := none } hd
                      else s) = s
                    rw [if_neg hp]
                  rw [he2]
  exact ⟨hwake, hyld, hder, hreg, hsched5, hsched6⟩

/-- Concrete scenario for the C10 witness: one released (READY) task at
the head of the run queue, no current task. -/
def c10_s : Mp2Sys :=
  wakeup_timer_handler (mp2_register_process mp2_init 1 10 1 0 true) 1

/-- C10 witness: dispatching the head advances its next_period by
exactly its own period, and a registration leaves an existing task's
next_period unchanged. -/
theorem C10_next_period_frame_witness :
    taskNextPeriod (mp2_sched_kthread_step c10_s) 0 = some (10 + 10) ∧
    taskNextPeriod (mp2_register_process c10_s 2 20 2 0 true) 0 = some 10 := by
  constructor
  · exact C10_next_period_frame.2.2.2.2.2 c10_s (0, 10) []
      ⟨0, 1, 1, 10, .ready, 10, none, .normal, 0, false⟩ (by decide) (by decide) (by decide)
  · exact C10_next_period_frame.2.2.2.1 c10_s 2 20 2 0 true 0 10 (by decide)
